import Mathlib

/-!
Shallow embedding of the cache2go table/item engine.

The Go source is embedded as pure Lean functions:
* `time.Time` and `time.Duration` are `Int` (nanoseconds); every operation that
  calls `time.Now()` in Go takes the current instant as an explicit `now` argument.
* the Go map `map[interface{}]*CacheItem` is an association list
  `List (Nat × CacheItem)` with Go-map semantics (unique keys in every reachable
  state; lookup, overwriting insert, erase); keys, callback functions and list /
  set / hash members are represented by `Nat` identifiers.
* pointer mutation of an item is modelled by writing the updated item back into
  the table's association list at its key.
* lock operations and callback invocations are recorded in an event trace so
  that ordering and lock-discipline statements can be made; the lock state at
  any point of a trace is recovered by folding `stepLock` over its prefix.
-/

namespace Cache2go

/-- Opaque payload of a cache item.  `raw` stands for an ordinary user value;
`dlist`, `dset` and `dhash` are the container payloads used by the composite
adapters (`container/list.List`, `*Set`, `map[interface{}]interface{}`). -/
inductive Data where
  | raw (n : Nat)
  | dlist (l : List Nat)
  | dset (len : Nat) (members : List (Nat × Nat))
  | dhash (entries : List (Nat × Nat))
deriving DecidableEq

/-- The error values of errors.go together with the adapter type-mismatch
errors (ErrKeyTypeNotList / ErrKeyTypeNotSet / ErrKeyTypeNotHash). -/
inductive CacheError where
  | keyNotFound
  | keyNotFoundOrLoadable
  | keyTypeNotList
  | keyTypeNotSet
  | keyTypeNotHash
deriving DecidableEq

/-- Outcome of a Go call that can also panic (used for operations whose Go code
contains an unchecked type assertion or nil dereference). -/
inductive GoResult (α : Type) where
  | ok (a : α)
  | err (e : CacheError)
  | panicked
deriving DecidableEq

/-- CacheItem (cacheitem.go): an individual cache item.  The `sync.RWMutex` is
not a datum; the item's lock is tracked in event traces instead. -/
structure CacheItem where
  key : Nat
  data : Data
  lifeSpan : Int
  createdOn : Int
  accessedOn : Int
  accessCount : Int
  aboutToExpire : List Nat
deriving DecidableEq

/-- NewCacheItem: `t := time.Now()`, createdOn = accessedOn = t,
accessCount = 0, aboutToExpire = nil. -/
def NewCacheItem (key : Nat) (lifeSpan : Int) (data : Data) (now : Int) : CacheItem :=
  { key := key
    lifeSpan := lifeSpan
    createdOn := now
    accessedOn := now
    accessCount := 0
    aboutToExpire := []
    data := data }

/-- CacheItem.KeepAlive: under the item lock, accessedOn = time.Now() and
accessCount++. -/
def CacheItem.KeepAlive (item : CacheItem) (now : Int) : CacheItem :=
  { item with accessedOn := now, accessCount := item.accessCount + 1 }

/-- Events recorded while an operation runs: lock transitions of the table
write lock and of per-item read locks, map mutations, and the three kinds of
callback invocation (with the argument the Go code passes). -/
inductive Event where
  | tableLock
  | tableUnlock
  | itemRLock (key : Nat)
  | itemRUnlock (key : Nat)
  | insertItem (key : Nat)
  | deleteItem (key : Nat)
  | cbAdded (cb : Nat) (item : CacheItem)
  | cbAboutToDelete (cb : Nat) (item : CacheItem)
  | cbAboutToExpire (cb : Nat) (key : Nat)
deriving DecidableEq

/-- A callback invocation extracted from an event trace. -/
inductive CbCall where
  | added (cb : Nat) (item : CacheItem)
  | del (cb : Nat) (item : CacheItem)
  | exp (cb : Nat) (key : Nat)
deriving DecidableEq

/-- The callback invocation an event represents, if any. -/
def cbOf : Event → Option CbCall
  | .cbAdded cb it => some (.added cb it)
  | .cbAboutToDelete cb it => some (.del cb it)
  | .cbAboutToExpire cb k => some (.exp cb k)
  | _ => none

/-- Lock state: depth of the table write lock and the multiset of keys whose
item read lock is held. -/
structure LockState where
  tableW : Nat
  itemR : List Nat
deriving DecidableEq

/-- Effect of one event on the lock state. -/
def stepLock (s : LockState) : Event → LockState
  | .tableLock => { s with tableW := s.tableW + 1 }
  | .tableUnlock => { s with tableW := s.tableW - 1 }
  | .itemRLock k => { s with itemR := k :: s.itemR }
  | .itemRUnlock k => { s with itemR := s.itemR.erase k }
  | _ => s

/-- Pair each event of a trace with the lock state in force when it happens,
starting from entry state `s`. -/
def annotate (s : LockState) : List Event → List (LockState × Event)
  | [] => []
  | e :: tr => (s, e) :: annotate (stepLock s e) tr

/-- Go map lookup on the association list (first binding). -/
def mapLookup {α : Type} : List (Nat × α) → Nat → Option α
  | [], _ => none
  | kv :: rest, k => if kv.1 = k then some kv.2 else mapLookup rest k

/-- Go map assignment `m[k] = v`: overwrite the binding in place, or append. -/
def mapInsert {α : Type} : List (Nat × α) → Nat → α → List (Nat × α)
  | [], k, v => [(k, v)]
  | kv :: rest, k, v => if kv.1 = k then (k, v) :: rest else kv :: mapInsert rest k v

/-- Go `delete(m, k)`: remove the binding of `k`. -/
def mapErase {α : Type} : List (Nat × α) → Nat → List (Nat × α)
  | [], _ => []
  | kv :: rest, k => if kv.1 = k then rest else kv :: mapErase rest k

/-- CacheTable (cache.go).  The logger is omitted (`table.log` is observably a
no-op for every claim); `cleanupTimer` is represented by `cleanupInterval`
alone (0 = no sweep scheduled), as in the spec's data model. -/
structure CacheTable where
  name : String
  items : List (Nat × CacheItem)
  cleanupInterval : Int
  loadData : Option (Nat → List Nat → Option CacheItem)
  addedItem : List Nat
  aboutToDeleteItem : List Nat

/-- Go-map well-formedness: the association list has pairwise distinct keys. -/
def keysNodup (table : CacheTable) : Prop := (table.items.map Prod.fst).Nodup

/-- Every stored item's `key` field is the key it is stored under (true of
every item the code ever stores). -/
def keyConsistent (table : CacheTable) : Prop := ∀ kv ∈ table.items, kv.2.key = kv.1

instance (t : CacheTable) : Decidable (keysNodup t) := by
  unfold keysNodup; infer_instance

instance (t : CacheTable) : Decidable (keyConsistent t) := by
  unfold keyConsistent; infer_instance

/-- CacheTable.Count: `len(table.items)` under read lock. -/
def CacheTable.Count (table : CacheTable) : Nat := table.items.length

/-- CacheTable.deleteInternal.  Called with the table write lock held.  On a
present key it releases the table lock, runs the table about-to-delete
callbacks, takes the item's read lock, runs the item's about-to-expire
callbacks, re-takes the table lock, deletes the map entry and (by the
deferred RUnlock) releases the item lock on return.  On an absent key it
returns ErrKeyNotFound without touching anything. -/
def CacheTable.deleteInternal (table : CacheTable) (key : Nat) :
    Except CacheError CacheItem × CacheTable × List Event :=
  match mapLookup table.items key with
  | none => (.error .keyNotFound, table, [])
  | some r =>
      (.ok r,
       { table with items := mapErase table.items key },
       .tableUnlock ::
         (table.aboutToDeleteItem.map (fun cb => Event.cbAboutToDelete cb r) ++
          .itemRLock key ::
            (r.aboutToExpire.map (fun cb => Event.cbAboutToExpire cb key) ++
             [.tableLock, .deleteItem key, .itemRUnlock key])))

/-- CacheTable.Delete: take the table write lock, deleteInternal, release. -/
def CacheTable.Delete (table : CacheTable) (key : Nat) :
    Except CacheError CacheItem × CacheTable × List Event :=
  let res := table.deleteInternal key
  (res.1, res.2.1, .tableLock :: (res.2.2 ++ [.tableUnlock]))

/-- The per-item snapshot the sweep caches under the item's read lock
(`lifeSpan := item.lifeSpan; accessedOn := item.accessedOn`). -/
def sweepSnapshot (item : CacheItem) : Int × Int := (item.lifeSpan, item.accessedOn)

/-- The sweep's deletion decision, computed from a snapshot: the item is
removed when `lifeSpan != 0 && now.Sub(accessedOn) >= lifeSpan`. -/
def sweepShouldDelete (snap : Int × Int) (now : Int) : Bool :=
  decide (snap.1 ≠ 0) && decide (snap.1 ≤ now - snap.2)

/-- The loop body of CacheTable.expirationCheck, folded over the item list.
Accumulator: current table, `smallestDuration`, events so far.  Each iteration
read-locks the item, caches `lifeSpan`/`accessedOn`, unlocks, then decides
from that snapshot. -/
def checkLoop (now : Int) :
    List (Nat × CacheItem) → CacheTable × Int × List Event → CacheTable × Int × List Event
  | [], acc => acc
  | kv :: rest, (t, smallest, evs) =>
      let snap := sweepSnapshot kv.2
      let evs2 := evs ++ [Event.itemRLock kv.1, Event.itemRUnlock kv.1]
      if snap.1 = 0 then
        checkLoop now rest (t, smallest, evs2)
      else if snap.1 ≤ now - snap.2 then
        let d := t.deleteInternal kv.1
        checkLoop now rest (d.2.1, smallest, evs2 ++ d.2.2)
      else if smallest = 0 ∨ snap.1 - (now - snap.2) < smallest then
        checkLoop now rest (t, snap.1 - (now - snap.2), evs2)
      else
        checkLoop now rest (t, smallest, evs2)

/-- CacheTable.expirationCheck: under the table write lock, sweep every item;
afterwards `cleanupInterval := smallestDuration` (the next timer, 0 = none). -/
def CacheTable.expirationCheck (table : CacheTable) (now : Int) :
    CacheTable × List Event :=
  let res := checkLoop now table.items (table, 0, [])
  ({ res.1 with cleanupInterval := res.2.1 },
   .tableLock :: (res.2.2 ++ [.tableUnlock]))

/-- CacheTable.addInternal.  Called with the table write lock held: store the
item, cache `cleanupInterval` and the added-item callback list, unlock, run
the added-item callbacks, and re-run expirationCheck if this item's deadline
is sooner than the scheduled one (`lifeSpan > 0 && (expDur == 0 ||
lifeSpan < expDur)`). -/
def CacheTable.addInternal (table : CacheTable) (item : CacheItem) (now : Int) :
    CacheTable × List Event :=
  let t1 := { table with items := mapInsert table.items item.key item }
  let expDur := t1.cleanupInterval
  let evs := Event.insertItem item.key :: Event.tableUnlock ::
    t1.addedItem.map (fun cb => Event.cbAdded cb item)
  if 0 < item.lifeSpan ∧ (expDur = 0 ∨ item.lifeSpan < expDur) then
    let res := t1.expirationCheck now
    (res.1, evs ++ res.2)
  else
    (t1, evs)

/-- CacheTable.Add: build a NewCacheItem, lock the table, addInternal. -/
def CacheTable.Add (table : CacheTable) (key : Nat) (lifeSpan : Int) (data : Data)
    (now : Int) : CacheItem × CacheTable × List Event :=
  let item := NewCacheItem key lifeSpan data now
  let res := table.addInternal item now
  (item, res.1, .tableLock :: res.2)

/-- CacheTable.NotFoundAdd: under one table write lock, if the key exists
return false (unlock, nothing changed); otherwise create the item and
addInternal it, returning true. -/
def CacheTable.NotFoundAdd (table : CacheTable) (key : Nat) (lifeSpan : Int)
    (data : Data) (now : Int) : Bool × CacheTable × List Event :=
  match mapLookup table.items key with
  | some _ => (false, table, [.tableLock, .tableUnlock])
  | none =>
      let item := NewCacheItem key lifeSpan data now
      let res := table.addInternal item now
      (true, res.1, .tableLock :: res.2)

/-- CacheTable.Value.  On a hit, KeepAlive the item (through its pointer, i.e.
the stored binding is updated) and return it.  On a miss with a loader,
invoke the loader with the key and arguments; a nil result is
ErrKeyNotFoundOrLoadable; otherwise `table.Add(key, item.lifeSpan,
item.data)` is called and the loader's item itself is returned.  With no
loader, ErrKeyNotFound. -/
def CacheTable.Value (table : CacheTable) (key : Nat) (args : List Nat) (now : Int) :
    Except CacheError CacheItem × CacheTable × List Event :=
  match mapLookup table.items key with
  | some r =>
      let r2 := r.KeepAlive now
      (.ok r2, { table with items := mapInsert table.items key r2 }, [])
  | none =>
      match table.loadData with
      | some loader =>
          match loader key args with
          | some item =>
              let res := table.Add key item.lifeSpan item.data now
              (.ok item, res.2.1, res.2.2)
          | none => (.error .keyNotFoundOrLoadable, table, [])
      | none => (.error .keyNotFound, table, [])

/-- The interleaving of one sweep iteration with a concurrent KeepAlive:
the sweep caches its snapshot under the item's read lock, the keep-alive
lands (at time `tKeep`), and only then does the sweep evaluate its deletion
decision — from the snapshot, which it does not re-read. -/
def sweepRaceDecision (item : CacheItem) (tKeep now : Int) : Bool × CacheItem :=
  let snap := sweepSnapshot item
  let item2 := item.KeepAlive tKeep
  (sweepShouldDelete snap now, item2)

/-- CacheItemPair / sort.Sort ordering of MostAccessed: pairs of key and
accessCount, sorted so that greater accessCount comes first. -/
def pairGE (a b : Nat × Int) : Prop := b.2 ≤ a.2

instance : DecidableRel pairGE := fun a b => inferInstanceAs (Decidable (b.2 ≤ a.2))

instance : IsTotal (Nat × Int) pairGE := ⟨fun a b => le_total b.2 a.2⟩

instance : IsTrans (Nat × Int) pairGE := ⟨fun _ _ _ h1 h2 => le_trans h2 h1⟩

/-- The collection loop of MostAccessed: walk the sorted pair list, stop once
`c >= count`, look each key up in the (unchanged) table and append. -/
def CacheTable.collectTop (table : CacheTable) (count : Int) :
    List (Nat × Int) → Int → List CacheItem
  | [], _ => []
  | v :: vs, c =>
      if count ≤ c then []
      else
        match mapLookup table.items v.1 with
        | some item => item :: table.collectTop count vs (c + 1)
        | none => table.collectTop count vs (c + 1)

/-- CacheTable.MostAccessed: under the table read lock, build the
(key, accessCount) pair list, sort it descending by accessCount, and collect
at most `count` items.  The table is returned unchanged: the operation reads
but never writes. -/
def CacheTable.MostAccessed (table : CacheTable) (count : Int) :
    List CacheItem × CacheTable :=
  let p := (table.items.map (fun kv => (kv.1, kv.2.accessCount))).insertionSort pairGE
  (table.collectTop count p 0, table)

/-- CacheTable.ListLength (cachetablelist.go): length of a list payload;
ErrKeyNotFound on an absent key, ErrKeyTypeNotList on a non-list payload. -/
def CacheTable.ListLength (table : CacheTable) (key : Nat) : Except CacheError Nat :=
  match mapLookup table.items key with
  | none => .error .keyNotFound
  | some listItem =>
      match listItem.data with
      | .dlist l => .ok l.length
      | _ => .error .keyTypeNotList

/-- CacheTable.push (cachetablelist.go): on an absent key create a fresh
one-element list item via addInternal; on a list payload push at the chosen
end; otherwise ErrKeyTypeNotList and nothing changes. -/
def CacheTable.push (table : CacheTable) (fromLeft : Bool) (key : Nat)
    (lifeSpan : Int) (value : Nat) (now : Int) : Except CacheError Unit × CacheTable :=
  match mapLookup table.items key with
  | none =>
      let res := table.addInternal (NewCacheItem key lifeSpan (.dlist [value]) now) now
      (.ok (), res.1)
  | some listItem =>
      match listItem.data with
      | .dlist l =>
          let l2 := if fromLeft then value :: l else l ++ [value]
          let item2 := { listItem with data := Data.dlist l2 }
          (.ok (), { table with items := mapInsert table.items key item2 })
      | _ => (.error .keyTypeNotList, table)

/-- CacheTable.pop (cachetablelist.go).  On an empty list payload the Go code
calls `listObj.Remove(nil)`, which dereferences nil and panics. -/
def CacheTable.pop (table : CacheTable) (fromLeft : Bool) (key : Nat) :
    GoResult Nat × CacheTable :=
  match mapLookup table.items key with
  | none => (.err .keyNotFound, table)
  | some listItem =>
      match listItem.data with
      | .dlist l =>
          if fromLeft then
            match l with
            | [] => (.panicked, table)
            | x :: xs =>
                let item2 := { listItem with data := Data.dlist xs }
                (.ok x, { table with items := mapInsert table.items key item2 })
          else
            match l.reverse with
            | [] => (.panicked, table)
            | x :: xs =>
                let item2 := { listItem with data := Data.dlist xs.reverse }
                (.ok x, { table with items := mapInsert table.items key item2 })
      | _ => (.err .keyTypeNotList, table)

/-- CacheTable.LPush. -/
def CacheTable.LPush (table : CacheTable) (key : Nat) (lifeSpan : Int) (value : Nat)
    (now : Int) : Except CacheError Unit × CacheTable :=
  table.push true key lifeSpan value now

/-- CacheTable.RPush. -/
def CacheTable.RPush (table : CacheTable) (key : Nat) (lifeSpan : Int) (value : Nat)
    (now : Int) : Except CacheError Unit × CacheTable :=
  table.push false key lifeSpan value now

/-- CacheTable.LPop. -/
def CacheTable.LPop (table : CacheTable) (key : Nat) : GoResult Nat × CacheTable :=
  table.pop true key

/-- CacheTable.RPop. -/
def CacheTable.RPop (table : CacheTable) (key : Nat) : GoResult Nat × CacheTable :=
  table.pop false key

/-- CacheTable.SAdd: on an absent key create a fresh one-member Set item; on a
Set payload `SetAdd` (members[member] = 0, len++); on any other payload kind
the `if set, ok := ...` guard silently does nothing, and the item is returned
with no error either way. -/
def CacheTable.SAdd (table : CacheTable) (key : Nat) (lifeSpan : Int) (member : Nat)
    (now : Int) : CacheItem × CacheTable :=
  match mapLookup table.items key with
  | none =>
      let hashItem := NewCacheItem key lifeSpan (.dset 1 [(member, 0)]) now
      let res := table.addInternal hashItem now
      (hashItem, res.1)
  | some item =>
      match item.data with
      | .dset len members =>
          let item2 := { item with data := Data.dset (len + 1) (mapInsert members member 0) }
          (item2, { table with items := mapInsert table.items key item2 })
      | _ => (item, table)

/-- CacheTable.SIsMember: false on an absent key or a non-Set payload,
otherwise membership in the Set. -/
def CacheTable.SIsMember (table : CacheTable) (key member : Nat) : Bool :=
  match mapLookup table.items key with
  | none => false
  | some setItem =>
      match setItem.data with
      | .dset _ members => (mapLookup members member).isSome
      | _ => false

/-- CacheTable.SDelete: ErrKeyNotFound on an absent key, ErrKeyTypeNotSet on a
non-Set payload, otherwise SetRemove (delete the member and len-- when it was
present). -/
def CacheTable.SDelete (table : CacheTable) (key member : Nat) :
    Except CacheError Unit × CacheTable :=
  match mapLookup table.items key with
  | none => (.error .keyNotFound, table)
  | some setItem =>
      match setItem.data with
      | .dset len members =>
          match mapLookup members member with
          | some _ =>
              let item2 := { setItem with data := Data.dset (len - 1) (mapErase members member) }
              (.ok (), { table with items := mapInsert table.items key item2 })
          | none => (.ok (), table)
      | _ => (.error .keyTypeNotSet, table)

/-- CacheTable.HAdd (part_007): on an absent key create a fresh one-entry hash
item; on a hash payload assign the field; on any other payload kind the
`if hash, ok := ...` guard silently does nothing; the item is returned with
no error either way. -/
def CacheTable.HAdd (table : CacheTable) (key : Nat) (lifeSpan : Int) (hkey hvalue : Nat)
    (now : Int) : CacheItem × CacheTable :=
  match mapLookup table.items key with
  | none =>
      let hashItem := NewCacheItem key lifeSpan (.dhash [(hkey, hvalue)]) now
      let res := table.addInternal hashItem now
      (hashItem, res.1)
  | some item =>
      match item.data with
      | .dhash entries =>
          let item2 := { item with data := Data.dhash (mapInsert entries hkey hvalue) }
          (item2, { table with items := mapInsert table.items key item2 })
      | _ => (item, table)

/-- CacheTable.HValue (part_007): `hashItem.Data().(map[interface{}]interface{})[hkey]`
uses an unchecked type assertion, so a non-hash payload panics; a missing
field is ErrKeyNotFound; a hit KeepAlives the item and returns the value. -/
def CacheTable.HValue (table : CacheTable) (key hkey : Nat) (now : Int) :
    GoResult Nat × CacheTable :=
  match mapLookup table.items key with
  | none => (.err .keyNotFound, table)
  | some hashItem =>
      match hashItem.data with
      | .dhash entries =>
          match mapLookup entries hkey with
          | none => (.err .keyNotFound, table)
          | some hvalue =>
              let item2 := hashItem.KeepAlive now
              (.ok hvalue, { table with items := mapInsert table.items key item2 })
      | _ => (.panicked, table)

/-- CacheTable.HDelete (part_007): ErrKeyNotFound on an absent key,
ErrKeyTypeNotHash on a non-hash payload, otherwise delete the field. -/
def CacheTable.HDelete (table : CacheTable) (key hkey : Nat) :
    Except CacheError Unit × CacheTable :=
  match mapLookup table.items key with
  | none => (.error .keyNotFound, table)
  | some hashItem =>
      match hashItem.data with
      | .dhash entries =>
          let item2 := { hashItem with data := Data.dhash (mapErase entries hkey) }
          (.ok (), { table with items := mapInsert table.items key item2 })
      | _ => (.error .keyTypeNotHash, table)

/-- For the purposes of a fixed key k: the event is not one of the deletion
callbacks of the binding at k (the about-to-delete argument has a different
key field; the about-to-expire argument is a different key). -/
def noCbFor (k : Nat) : Event → Prop
  | .cbAboutToDelete _ it => it.key ≠ k
  | .cbAboutToExpire _ k2 => k2 ≠ k
  | _ => True

/-- An event that does not change the lock state (callback invocations and map
mutations). -/
def lockNeutral (e : Event) : Prop := ∀ s, stepLock s e = s

/-! ## Concrete instances used by witnesses and counterexamples -/

/-- A non-expiring item with a plain payload, stored under key 1. -/
def itemZ : CacheItem :=
  { key := 1, data := .raw 4, lifeSpan := 0, createdOn := 0, accessedOn := 0,
    accessCount := 0, aboutToExpire := [] }

/-- A one-item table holding `itemZ`, with no loader and no callbacks. -/
def tableZ : CacheTable :=
  { name := "z", items := [(1, itemZ)], cleanupInterval := 0, loadData := none,
    addedItem := [], aboutToDeleteItem := [] }

/-- An empty table with no loader and no callbacks. -/
def emptyTable : CacheTable :=
  { name := "e", items := [], cleanupInterval := 0, loadData := none,
    addedItem := [], aboutToDeleteItem := [] }

/-- An item a loader returns: created at time 5 and carrying an
about-to-expire callback. -/
def loaderItem : CacheItem :=
  { key := 9, data := .raw 3, lifeSpan := 0, createdOn := 5, accessedOn := 5,
    accessCount := 0, aboutToExpire := [7] }

/-- An empty table whose loader always produces `loaderItem`. -/
def tableL : CacheTable :=
  { name := "l", items := [], cleanupInterval := 0,
    loadData := some (fun _ _ => some loaderItem),
    addedItem := [], aboutToDeleteItem := [] }

/-- An item with one about-to-expire callback, stored under key 5. -/
def itemE : CacheItem :=
  { key := 5, data := .raw 0, lifeSpan := 0, createdOn := 0, accessedOn := 0,
    accessCount := 0, aboutToExpire := [1] }

/-- A table holding `itemE` and one table-level about-to-delete callback. -/
def tableD : CacheTable :=
  { name := "d", items := [(5, itemE)], cleanupInterval := 0, loadData := none,
    addedItem := [], aboutToDeleteItem := [0] }

/-- Two items with distinct access counts, for the ranking query. -/
def itemM1 : CacheItem :=
  { key := 1, data := .raw 1, lifeSpan := 0, createdOn := 0, accessedOn := 0,
    accessCount := 2, aboutToExpire := [] }

/-- Second ranking-query item. -/
def itemM2 : CacheItem :=
  { key := 2, data := .raw 2, lifeSpan := 0, createdOn := 0, accessedOn := 0,
    accessCount := 7, aboutToExpire := [] }

/-- A two-item table for the ranking query. -/
def tableM : CacheTable :=
  { name := "m", items := [(1, itemM1), (2, itemM2)], cleanupInterval := 0,
    loadData := none, addedItem := [], aboutToDeleteItem := [] }

/-- An item with lifeSpan 10 last accessed at time 0 (the sweep-race scene). -/
def itemR : CacheItem := NewCacheItem 1 10 (.raw 0) 0

/-- An old binding at key 1 and an expired binding at key 2: replacing key 1
with a fresh short-deadline item triggers a sweep that removes key 2. -/
def itemOld : CacheItem :=
  { key := 1, data := .raw 1, lifeSpan := 5, createdOn := 0, accessedOn := 0,
    accessCount := 3, aboutToExpire := [2] }

/-- The expired second item of `tableX`. -/
def itemExp : CacheItem :=
  { key := 2, data := .raw 2, lifeSpan := 1, createdOn := 0, accessedOn := 0,
    accessCount := 0, aboutToExpire := [] }

/-- Table with `itemOld` (key 1) and `itemExp` (key 2), no sweep scheduled. -/
def tableX : CacheTable :=
  { name := "x", items := [(1, itemOld), (2, itemExp)], cleanupInterval := 0,
    loadData := none, addedItem := [], aboutToDeleteItem := [] }

/-! ## Association-list lemmas -/

theorem mapLookup_insert_self {α : Type} (l : List (Nat × α)) (k : Nat) (v : α) :
    mapLookup (mapInsert l k v) k = some v := by
  induction l with
  | nil => simp [mapInsert, mapLookup]
  | cons kv rest ih =>
      by_cases h : kv.1 = k
      · simp [mapInsert, h, mapLookup]
      · simp [mapInsert, h, mapLookup, ih]

theorem mapLookup_insert_ne {α : Type} (l : List (Nat × α)) (k2 k : Nat) (v : α)
    (h : k2 ≠ k) : mapLookup (mapInsert l k2 v) k = mapLookup l k := by
  induction l with
  | nil => simp [mapInsert, mapLookup, h]
  | cons kv rest ih =>
      by_cases h1 : kv.1 = k2
      · simp [mapInsert, h1, mapLookup, h]
      · simp [mapInsert, h1, mapLookup, ih]

theorem mapLookup_erase_ne {α : Type} (l : List (Nat × α)) (k2 k : Nat)
    (h : k2 ≠ k) : mapLookup (mapErase l k2) k = mapLookup l k := by
  induction l with
  | nil => simp [mapErase]
  | cons kv rest ih =>
      obtain ⟨k1, v1⟩ := kv
      by_cases h1 : k1 = k2
      · subst h1
        simp [mapErase, mapLookup, h]
      · by_cases h2 : k1 = k
        · subst h2
          have h3 : ¬k1 = k2 := h1
          simp [mapErase, h3, mapLookup]
        · simp [mapErase, h1, mapLookup, h2, ih]

theorem mem_of_mapLookup {α : Type} {l : List (Nat × α)} {k : Nat} {v : α}
    (h : mapLookup l k = some v) : (k, v) ∈ l := by
  induction l with
  | nil => simp [mapLookup] at h
  | cons kv rest ih =>
      obtain ⟨k1, v1⟩ := kv
      by_cases h1 : k1 = k
      · subst h1
        simp [mapLookup] at h
        subst h
        exact List.mem_cons_self _ _
      · simp [mapLookup, h1] at h
        exact List.mem_cons_of_mem _ (ih h)

theorem not_mem_of_mapLookup_none {α : Type} {l : List (Nat × α)} {k : Nat}
    (h : mapLookup l k = none) : ∀ v : α, (k, v) ∉ l := by
  induction l with
  | nil => simp
  | cons kv rest ih =>
      obtain ⟨k1, v1⟩ := kv
      by_cases h1 : k1 = k
      · simp [mapLookup, h1] at h
      · simp [mapLookup, h1] at h
        intro v hv
        rcases List.mem_cons.1 hv with h2 | h2
        · obtain ⟨hk, hv2⟩ := Prod.ext_iff.1 h2
          exact h1 hk.symm
        · exact ih h v h2

theorem mapLookup_eq_of_mem_nodup {α : Type} {l : List (Nat × α)} {k : Nat} {v : α}
    (hnd : (l.map Prod.fst).Nodup) (hm : (k, v) ∈ l) : mapLookup l k = some v := by
  induction l with
  | nil => simp at hm
  | cons kv rest ih =>
      obtain ⟨k1, v1⟩ := kv
      simp only [List.map_cons, List.nodup_cons] at hnd
      rcases List.mem_cons.1 hm with h2 | h2
      · obtain ⟨hk, hv⟩ := Prod.ext_iff.1 h2
        subst hk
        subst hv
        simp [mapLookup]
      · have hk : k1 ≠ k := by
          intro hc
          subst hc
          exact hnd.1 (List.mem_map.2 ⟨(k1, v), h2, rfl⟩)
        simp [mapLookup, hk]
        exact ih hnd.2 h2

theorem binding_unique_of_nodup {α : Type} {l : List (Nat × α)} {k : Nat} {a b : α}
    (hnd : (l.map Prod.fst).Nodup) (ha : (k, a) ∈ l) (hb : (k, b) ∈ l) : a = b := by
  have h1 := mapLookup_eq_of_mem_nodup hnd ha
  have h2 := mapLookup_eq_of_mem_nodup hnd hb
  rw [h1] at h2
  exact Option.some.inj h2

theorem mem_mapInsert {α : Type} {l : List (Nat × α)} {k : Nat} {v : α} {kv : Nat × α}
    (h : kv ∈ mapInsert l k v) : kv = (k, v) ∨ kv ∈ l := by
  induction l with
  | nil => simp [mapInsert] at h; left; exact h
  | cons kv0 rest ih =>
      by_cases h1 : kv0.1 = k
      · simp only [mapInsert, if_pos h1, List.mem_cons] at h
        rcases h with h | h
        · left; exact h
        · right; exact List.mem_cons_of_mem _ h
      · simp only [mapInsert, if_neg h1, List.mem_cons] at h
        rcases h with h | h
        · right; exact List.mem_cons.2 (Or.inl h)
        · rcases ih h with h2 | h2
          · left; exact h2
          · right; exact List.mem_cons_of_mem _ h2

theorem mem_mapErase {α : Type} {l : List (Nat × α)} {k : Nat} {kv : Nat × α}
    (h : kv ∈ mapErase l k) : kv ∈ l := by
  induction l with
  | nil => simp [mapErase] at h
  | cons kv0 rest ih =>
      by_cases h1 : kv0.1 = k
      · simp only [mapErase, if_pos h1] at h
        exact List.mem_cons_of_mem _ h
      · simp only [mapErase, if_neg h1, List.mem_cons] at h
        rcases h with h | h
        · exact List.mem_cons.2 (Or.inl h)
        · exact List.mem_cons_of_mem _ (ih h)

theorem mapInsert_length_of_mem {α : Type} (l : List (Nat × α)) (k : Nat) (v w : α)
    (h : mapLookup l k = some w) : (mapInsert l k v).length = l.length := by
  induction l with
  | nil => simp [mapLookup] at h
  | cons kv rest ih =>
      by_cases h1 : kv.1 = k
      · simp [mapInsert, h1]
      · simp [mapLookup, h1] at h
        simp [mapInsert, h1, ih h]

theorem keys_nodup_mapInsert {α : Type} {l : List (Nat × α)} (k : Nat) (v : α)
    (hnd : (l.map Prod.fst).Nodup) : ((mapInsert l k v).map Prod.fst).Nodup := by
  induction l with
  | nil => simp [mapInsert]
  | cons kv rest ih =>
      obtain ⟨k1, v1⟩ := kv
      simp only [List.map_cons, List.nodup_cons] at hnd
      by_cases h1 : k1 = k
      · subst h1
        rw [show mapInsert ((k1, v1) :: rest) k1 v = (k1, v) :: rest by simp [mapInsert]]
        simp only [List.map_cons, List.nodup_cons]
        exact hnd
      · simp only [mapInsert, if_neg h1, List.map_cons, List.nodup_cons]
        refine ⟨?_, ih hnd.2⟩
        intro hc
        rcases List.mem_map.1 hc with ⟨kv2, hkv2, hfst⟩
        rcases mem_mapInsert hkv2 with h2 | h2
        · rw [h2] at hfst
          exact h1 hfst.symm
        · exact hnd.1 (List.mem_map.2 ⟨kv2, h2, hfst⟩)

/-! ## deleteInternal and sweep lemmas -/

theorem deleteInternal_of_lookup_none (t : CacheTable) (k : Nat)
    (h : mapLookup t.items k = none) :
    t.deleteInternal k = (.error .keyNotFound, t, []) := by
  simp [CacheTable.deleteInternal, h]

theorem deleteInternal_lookup_other (t : CacheTable) (k2 k : Nat) (h : k2 ≠ k) :
    mapLookup (t.deleteInternal k2).2.1.items k = mapLookup t.items k := by
  cases h2 : mapLookup t.items k2 with
  | none => simp [CacheTable.deleteInternal, h2]
  | some r => simp [CacheTable.deleteInternal, h2, mapLookup_erase_ne _ _ _ h]

theorem keyConsistent_deleteInternal (t : CacheTable) (k2 : Nat)
    (hkc : keyConsistent t) : keyConsistent (t.deleteInternal k2).2.1 := by
  cases h2 : mapLookup t.items k2 with
  | none => simp [CacheTable.deleteInternal, h2]; exact hkc
  | some r =>
      simp only [CacheTable.deleteInternal, h2]
      intro kv hkv
      exact hkc kv (mem_mapErase hkv)

theorem deleteInternal_events_noCbFor (t : CacheTable) (k2 k : Nat)
    (hkc : keyConsistent t) (hne : k2 ≠ k) :
    ∀ e ∈ (t.deleteInternal k2).2.2, noCbFor k e := by
  cases h2 : mapLookup t.items k2 with
  | none => simp [CacheTable.deleteInternal, h2]
  | some r =>
      have hrk : r.key = k2 := hkc (k2, r) (mem_of_mapLookup h2)
      intro e he
      simp only [CacheTable.deleteInternal, h2, List.mem_cons, List.mem_append,
        List.mem_map, List.mem_singleton] at he
      rcases he with rfl | he
      · trivial
      rcases he with ⟨cb, _, rfl⟩ | he
      · show r.key ≠ k
        rw [hrk]
        exact hne
      rcases he with rfl | he
      · trivial
      rcases he with ⟨cb, _, rfl⟩ | he
      · exact hne
      rcases he with rfl | he
      · trivial
      rcases he with rfl | he
      · trivial
      rcases he with rfl | he
      · trivial
      · simp at he

theorem checkLoop_lookup_keep (now : Int) (ps : List (Nat × CacheItem)) (k : Nat)
    (hks : ∀ kv ∈ ps, kv.1 = k → sweepShouldDelete (sweepSnapshot kv.2) now = false) :
    ∀ (t : CacheTable) (s : Int) (evs : List Event),
      mapLookup (checkLoop now ps (t, s, evs)).1.items k = mapLookup t.items k := by
  induction ps with
  | nil => intro t s evs; simp [checkLoop]
  | cons kv rest ih =>
      intro t s evs
      have hrest := fun kv2 h2 => hks kv2 (List.mem_cons_of_mem _ h2)
      have hkv := hks kv (List.mem_cons_self _ _)
      by_cases h0 : (sweepSnapshot kv.2).1 = 0
      · simp only [checkLoop, if_pos h0]
        exact ih hrest t s _
      · by_cases hexp : (sweepSnapshot kv.2).1 ≤ now - (sweepSnapshot kv.2).2
        · have hne : kv.1 ≠ k := by
            intro hc
            have := hkv hc
            simp [sweepShouldDelete, h0, hexp] at this
          simp only [checkLoop, if_neg h0, if_pos hexp]
          rw [ih hrest _ s _]
          exact deleteInternal_lookup_other t kv.1 k hne
        · by_cases hsm : s = 0 ∨ (sweepSnapshot kv.2).1 - (now - (sweepSnapshot kv.2).2) < s
          · simp only [checkLoop, if_neg h0, if_neg hexp, if_pos hsm]
            exact ih hrest t _ _
          · simp only [checkLoop, if_neg h0, if_neg hexp, if_neg hsm]
            exact ih hrest t s _

theorem checkLoop_table_keep (now : Int) (ps : List (Nat × CacheItem))
    (hks : ∀ kv ∈ ps, sweepShouldDelete (sweepSnapshot kv.2) now = false) :
    ∀ (t : CacheTable) (s : Int) (evs : List Event),
      (checkLoop now ps (t, s, evs)).1 = t := by
  induction ps with
  | nil => intro t s evs; simp [checkLoop]
  | cons kv rest ih =>
      intro t s evs
      have hrest := fun kv2 h2 => hks kv2 (List.mem_cons_of_mem _ h2)
      have hkv := hks kv (List.mem_cons_self _ _)
      by_cases h0 : (sweepSnapshot kv.2).1 = 0
      · simp only [checkLoop, if_pos h0]
        exact ih hrest t s _
      · by_cases hexp : (sweepSnapshot kv.2).1 ≤ now - (sweepSnapshot kv.2).2
        · simp [sweepShouldDelete, h0, hexp] at hkv
        · by_cases hsm : s = 0 ∨ (sweepSnapshot kv.2).1 - (now - (sweepSnapshot kv.2).2) < s
          · simp only [checkLoop, if_neg h0, if_neg hexp, if_pos hsm]
            exact ih hrest t _ _
          · simp only [checkLoop, if_neg h0, if_neg hexp, if_neg hsm]
            exact ih hrest t s _

theorem keyConsistent_checkLoop (now : Int) (ps : List (Nat × CacheItem)) :
    ∀ (t : CacheTable) (s : Int) (evs : List Event), keyConsistent t →
      keyConsistent (checkLoop now ps (t, s, evs)).1 := by
  induction ps with
  | nil => intro t s evs hkc; simpa [checkLoop] using hkc
  | cons kv rest ih =>
      intro t s evs hkc
      by_cases h0 : (sweepSnapshot kv.2).1 = 0
      · simp only [checkLoop, if_pos h0]
        exact ih t s _ hkc
      · by_cases hexp : (sweepSnapshot kv.2).1 ≤ now - (sweepSnapshot kv.2).2
        · simp only [checkLoop, if_neg h0, if_pos hexp]
          exact ih _ s _ (keyConsistent_deleteInternal t kv.1 hkc)
        · by_cases hsm : s = 0 ∨ (sweepSnapshot kv.2).1 - (now - (sweepSnapshot kv.2).2) < s
          · simp only [checkLoop, if_neg h0, if_neg hexp, if_pos hsm]
            exact ih t _ _ hkc
          · simp only [checkLoop, if_neg h0, if_neg hexp, if_neg hsm]
            exact ih t s _ hkc

theorem checkLoop_events_noCbFor (now : Int) (ps : List (Nat × CacheItem)) (k : Nat)
    (hks : ∀ kv ∈ ps, kv.1 ≠ k ∨ sweepShouldDelete (sweepSnapshot kv.2) now = false) :
    ∀ (t : CacheTable) (s : Int) (evs : List Event), keyConsistent t →
      (∀ e ∈ evs, noCbFor k e) →
      ∀ e ∈ (checkLoop now ps (t, s, evs)).2.2, noCbFor k e := by
  induction ps with
  | nil => intro t s evs _ hevs; simpa [checkLoop] using hevs
  | cons kv rest ih =>
      intro t s evs hkc hevs
      have hrest := fun kv2 h2 => hks kv2 (List.mem_cons_of_mem _ h2)
      have hkv := hks kv (List.mem_cons_self _ _)
      have hevs2 : ∀ e ∈ evs ++ [Event.itemRLock kv.1, Event.itemRUnlock kv.1], noCbFor k e := by
        intro e he
        rcases List.mem_append.1 he with he | he
        · exact hevs e he
        · rcases List.mem_cons.1 he with rfl | he
          · trivial
          · rcases List.mem_singleton.1 he with rfl
            trivial
      by_cases h0 : (sweepSnapshot kv.2).1 = 0
      · simp only [checkLoop, if_pos h0]
        exact ih hrest t s _ hkc hevs2
      · by_cases hexp : (sweepSnapshot kv.2).1 ≤ now - (sweepSnapshot kv.2).2
        · have hne : kv.1 ≠ k := by
            rcases hkv with h | h
            · exact h
            · simp [sweepShouldDelete, h0, hexp] at h
          simp only [checkLoop, if_neg h0, if_pos hexp]
          refine ih hrest _ s _ (keyConsistent_deleteInternal t kv.1 hkc) ?_
          intro e he
          rcases List.mem_append.1 he with he | he
          · exact hevs2 e he
          · exact deleteInternal_events_noCbFor t kv.1 k hkc hne e he
        · by_cases hsm : s = 0 ∨ (sweepSnapshot kv.2).1 - (now - (sweepSnapshot kv.2).2) < s
          · simp only [checkLoop, if_neg h0, if_neg hexp, if_pos hsm]
            exact ih hrest t _ _ hkc hevs2
          · simp only [checkLoop, if_neg h0, if_neg hexp, if_neg hsm]
            exact ih hrest t s _ hkc hevs2

/-! ## expirationCheck, addInternal and Value lemmas -/

theorem sweepShouldDelete_fresh (d t0 : Int) (hd : 0 < d) :
    sweepShouldDelete (d, t0) t0 = false := by
  simp only [sweepShouldDelete, Bool.and_eq_false_iff, decide_eq_false_iff_not]
  right
  omega

theorem expirationCheck_lookup_keep (t : CacheTable) (now : Int) (k : Nat)
    (hks : ∀ kv ∈ t.items, kv.1 = k → sweepShouldDelete (sweepSnapshot kv.2) now = false) :
    mapLookup (t.expirationCheck now).1.items k = mapLookup t.items k := by
  show mapLookup (checkLoop now t.items (t, 0, [])).1.items k = mapLookup t.items k
  exact checkLoop_lookup_keep now t.items k hks t 0 []

theorem addInternal_lookup_self (t : CacheTable) (item : CacheItem) (now : Int)
    (hacc : item.accessedOn = now)
    (huniq : ∀ kv ∈ mapInsert t.items item.key item, kv.1 = item.key → kv.2 = item) :
    mapLookup (t.addInternal item now).1.items item.key = some item := by
  by_cases htr : 0 < item.lifeSpan ∧
      (({ t with items := mapInsert t.items item.key item } : CacheTable).cleanupInterval = 0 ∨
       item.lifeSpan < ({ t with items := mapInsert t.items item.key item } : CacheTable).cleanupInterval)
  · simp only [CacheTable.addInternal, if_pos htr]
    rw [expirationCheck_lookup_keep]
    · exact mapLookup_insert_self t.items item.key item
    · intro kv hkv hk
      rw [huniq kv hkv hk]
      show sweepShouldDelete (item.lifeSpan, item.accessedOn) now = false
      rw [hacc]
      exact sweepShouldDelete_fresh item.lifeSpan now htr.1
  · simp only [CacheTable.addInternal, if_neg htr]
    exact mapLookup_insert_self t.items item.key item

theorem addInternal_items_of_no_expired (t : CacheTable) (item : CacheItem) (now : Int)
    (hks : ∀ kv ∈ mapInsert t.items item.key item,
      sweepShouldDelete (sweepSnapshot kv.2) now = false) :
    (t.addInternal item now).1.items = mapInsert t.items item.key item := by
  by_cases htr : 0 < item.lifeSpan ∧
      (({ t with items := mapInsert t.items item.key item } : CacheTable).cleanupInterval = 0 ∨
       item.lifeSpan < ({ t with items := mapInsert t.items item.key item } : CacheTable).cleanupInterval)
  · simp only [CacheTable.addInternal, if_pos htr]
    show ({ (checkLoop now _ _).1 with cleanupInterval := _ } : CacheTable).items = _
    rw [checkLoop_table_keep now _ hks]
  · simp only [CacheTable.addInternal, if_neg htr]

theorem keyConsistent_items_mapInsert (l : List (Nat × CacheItem)) (item : CacheItem)
    (hkc : ∀ kv ∈ l, kv.2.key = kv.1) :
    ∀ kv ∈ mapInsert l item.key item, kv.2.key = kv.1 := by
  intro kv hkv
  rcases mem_mapInsert hkv with h | h
  · rw [h]
  · exact hkc kv h

theorem addInternal_events_noCbFor (t : CacheTable) (item : CacheItem) (now : Int) (k : Nat)
    (hkc : keyConsistent t) (hik : item.key = k) (hacc : item.accessedOn = now)
    (huniq : ∀ kv ∈ mapInsert t.items item.key item, kv.1 = item.key → kv.2 = item) :
    ∀ e ∈ (t.addInternal item now).2, noCbFor k e := by
  have hbase : ∀ e ∈ Event.insertItem item.key :: Event.tableUnlock ::
      (({ t with items := mapInsert t.items item.key item } : CacheTable).addedItem.map
        (fun cb => Event.cbAdded cb item)), noCbFor k e := by
    intro e he
    rcases List.mem_cons.1 he with rfl | he
    · trivial
    rcases List.mem_cons.1 he with rfl | he
    · trivial
    rcases List.mem_map.1 he with ⟨cb, _, rfl⟩
    trivial
  by_cases htr : 0 < item.lifeSpan ∧
      (({ t with items := mapInsert t.items item.key item } : CacheTable).cleanupInterval = 0 ∨
       item.lifeSpan < ({ t with items := mapInsert t.items item.key item } : CacheTable).cleanupInterval)
  · simp only [CacheTable.addInternal, if_pos htr]
    intro e he
    rcases List.mem_append.1 he with he | he
    · exact hbase e he
    · show noCbFor k e
      have hkc1 : keyConsistent { t with items := mapInsert t.items item.key item } := by
        intro kv hkv
        exact keyConsistent_items_mapInsert t.items item hkc kv hkv
      have hks : ∀ kv ∈ mapInsert t.items item.key item,
          kv.1 ≠ k ∨ sweepShouldDelete (sweepSnapshot kv.2) now = false := by
        intro kv hkv
        by_cases hk : kv.1 = k
        · right
          rw [huniq kv hkv (by rw [hk, hik])]
          show sweepShouldDelete (item.lifeSpan, item.accessedOn) now = false
          rw [hacc]
          exact sweepShouldDelete_fresh item.lifeSpan now htr.1
        · left; exact hk
      rcases List.mem_cons.1 he with rfl | he
      · trivial
      rcases List.mem_append.1 he with he | he
      · exact checkLoop_events_noCbFor now _ k hks _ 0 [] hkc1 (by intro e he; simp at he) e he
      · rcases List.mem_singleton.1 he with rfl
        trivial
  · simp only [CacheTable.addInternal, if_neg htr]
    exact hbase

theorem value_hit (t : CacheTable) (k : Nat) (args : List Nat) (now : Int) (r : CacheItem)
    (h : mapLookup t.items k = some r) :
    t.Value k args now =
      (.ok (r.KeepAlive now),
       { t with items := mapInsert t.items k (r.KeepAlive now) }, []) := by
  simp [CacheTable.Value, h]

/-! ## Lock-trace lemmas -/

theorem foldl_stepLock_neutral (l : List Event) (s : LockState)
    (h : ∀ e ∈ l, lockNeutral e) : l.foldl stepLock s = s := by
  induction l generalizing s with
  | nil => rfl
  | cons e rest ih =>
      rw [List.foldl_cons, h e (List.mem_cons_self _ _) s]
      exact ih s (fun e2 h2 => h e2 (List.mem_cons_of_mem _ h2))

theorem annotate_append (s : LockState) (l1 l2 : List Event) :
    annotate s (l1 ++ l2) = annotate s l1 ++ annotate (l1.foldl stepLock s) l2 := by
  induction l1 generalizing s with
  | nil => rfl
  | cons e rest ih => simp [annotate, ih]

theorem annotate_neutral (l : List Event) (s : LockState)
    (h : ∀ e ∈ l, lockNeutral e) : annotate s l = l.map (fun e => (s, e)) := by
  induction l with
  | nil => rfl
  | cons e rest ih =>
      rw [List.map_cons]
      show (s, e) :: annotate (stepLock s e) rest = _
      rw [h e (List.mem_cons_self _ _) s]
      rw [ih (fun e2 h2 => h e2 (List.mem_cons_of_mem _ h2))]

theorem lockNeutral_cbAboutToDelete (cb : Nat) (it : CacheItem) :
    lockNeutral (.cbAboutToDelete cb it) := fun _ => rfl

theorem lockNeutral_cbAboutToExpire (cb : Nat) (k : Nat) :
    lockNeutral (.cbAboutToExpire cb k) := fun _ => rfl

/-! ## Ranking-query lemmas -/

theorem collectTop_length (t : CacheTable) (count : Int) (ps : List (Nat × Int))
    (hlk : ∀ v ∈ ps, (mapLookup t.items v.1).isSome = true) :
    ∀ c : Int, (t.collectTop count ps c).length = min (count - c).toNat ps.length := by
  induction ps with
  | nil => intro c; simp [CacheTable.collectTop]
  | cons v vs ih =>
      intro c
      have hvs := fun v2 h2 => hlk v2 (List.mem_cons_of_mem _ h2)
      by_cases hc : count ≤ c
      · have h0 : (count - c).toNat = 0 := by omega
        simp [CacheTable.collectTop, hc, h0]
      · cases hsome : mapLookup t.items v.1 with
        | none =>
            have := hlk v (List.mem_cons_self _ _)
            rw [hsome] at this
            simp at this
        | some item =>
            simp only [CacheTable.collectTop, if_neg hc, hsome, List.length_cons]
            rw [ih hvs (c + 1)]
            omega

theorem collectTop_mem (t : CacheTable) (count : Int) (ps : List (Nat × Int)) :
    ∀ (c : Int) (it : CacheItem), it ∈ t.collectTop count ps c →
      ∃ v ∈ ps, mapLookup t.items v.1 = some it := by
  induction ps with
  | nil => intro c it h; simp [CacheTable.collectTop] at h
  | cons v vs ih =>
      intro c it h
      by_cases hc : count ≤ c
      · simp [CacheTable.collectTop, hc] at h
      · cases hsome : mapLookup t.items v.1 with
        | none =>
            rw [CacheTable.collectTop, if_neg hc, hsome] at h
            rcases ih (c + 1) it h with ⟨v2, hv2, hl⟩
            exact ⟨v2, List.mem_cons_of_mem _ hv2, hl⟩
        | some item =>
            rw [CacheTable.collectTop, if_neg hc, hsome] at h
            rcases List.mem_cons.1 h with rfl | h
            · exact ⟨v, List.mem_cons_self _ _, hsome⟩
            · rcases ih (c + 1) it h with ⟨v2, hv2, hl⟩
              exact ⟨v2, List.mem_cons_of_mem _ hv2, hl⟩

theorem collectTop_sorted (t : CacheTable) (count : Int) (ps : List (Nat × Int))
    (hcons : ∀ v ∈ ps, ∀ it, mapLookup t.items v.1 = some it → it.accessCount = v.2)
    (hsorted : ps.Pairwise pairGE) :
    ∀ c : Int, (t.collectTop count ps c).Pairwise
      (fun a b : CacheItem => b.accessCount ≤ a.accessCount) := by
  induction ps with
  | nil => intro c; simp [CacheTable.collectTop]
  | cons v vs ih =>
      intro c
      have hvs := fun v2 h2 => hcons v2 (List.mem_cons_of_mem _ h2)
      rcases List.pairwise_cons.1 hsorted with ⟨hhead, htail⟩
      by_cases hc : count ≤ c
      · simp [CacheTable.collectTop, hc]
      · cases hsome : mapLookup t.items v.1 with
        | none =>
            rw [CacheTable.collectTop, if_neg hc, hsome]
            exact ih hvs htail (c + 1)
        | some item =>
            rw [CacheTable.collectTop, if_neg hc, hsome]
            refine List.pairwise_cons.2 ⟨?_, ih hvs htail (c + 1)⟩
            intro b hb
            rcases collectTop_mem t count vs (c + 1) b hb with ⟨v2, hv2, hl⟩
            have hb2 : b.accessCount = v2.2 := hvs v2 hv2 b hl
            have hi : item.accessCount = v.2 := hcons v (List.mem_cons_self _ _) item hsome
            rw [hb2, hi]
            exact hhead v2 hv2

/-! ## Binding-uniqueness helpers -/

theorem mapInsert_binding_unique {α : Type} {l : List (Nat × α)} {k : Nat} {v : α}
    (hnd : (l.map Prod.fst).Nodup) :
    ∀ kv ∈ mapInsert l k v, kv.1 = k → kv.2 = v := by
  intro kv hkv hk
  have hnd2 := keys_nodup_mapInsert k v hnd
  have h1 : (k, kv.2) ∈ mapInsert l k v := by
    rw [show (k, kv.2) = kv by rw [← hk]]
    exact hkv
  have h2 : (k, v) ∈ mapInsert l k v := mem_of_mapLookup (mapLookup_insert_self l k v)
  exact binding_unique_of_nodup hnd2 h1 h2

theorem mapInsert_binding_unique_of_absent {α : Type} {l : List (Nat × α)} {k : Nat} {v : α}
    (habs : mapLookup l k = none) :
    ∀ kv ∈ mapInsert l k v, kv.1 = k → kv.2 = v := by
  intro kv hkv hk
  rcases mem_mapInsert hkv with h | h
  · rw [h]
  · exfalso
    have h2 : (k, kv.2) ∈ l := by
      rw [show (k, kv.2) = kv by rw [← hk]]
      exact h
    exact not_mem_of_mapLookup_none habs kv.2 h2

theorem lookup_binding_unique {l : List (Nat × CacheItem)} {k : Nat} {it : CacheItem}
    (hnd : (l.map Prod.fst).Nodup) (hit : mapLookup l k = some it) :
    ∀ kv ∈ l, kv.1 = k → kv.2 = it := by
  intro kv hkv hk
  have h1 : (k, kv.2) ∈ l := by
    rw [show (k, kv.2) = kv by rw [← hk]]
    exact hkv
  exact binding_unique_of_nodup hnd h1 (mem_of_mapLookup hit)

/-! ## Claims -/

/-- C1: for every table and every item whose lifeSpan is 0, the expiration
scheduler's sweep (expirationCheck) never deletes that item, regardless of how
much time has elapsed since its last access; a subsequent Value call on its
key still succeeds (with the usual keep-alive applied to the returned item). -/
theorem c1_lifespan_zero_never_swept (t : CacheTable) (now now2 : Int) (k : Nat)
    (it : CacheItem) (args : List Nat)
    (hnd : keysNodup t) (hit : mapLookup t.items k = some it) (h0 : it.lifeSpan = 0) :
    mapLookup (t.expirationCheck now).1.items k = some it ∧
    ((t.expirationCheck now).1.Value k args now2).1 = .ok (it.KeepAlive now2) := by
  have hkeep : mapLookup (t.expirationCheck now).1.items k = some it := by
    rw [expirationCheck_lookup_keep]
    · exact hit
    · intro kv hkv hk
      rw [lookup_binding_unique hnd hit kv hkv hk]
      simp [sweepShouldDelete, sweepSnapshot, h0]
  refine ⟨hkeep, ?_⟩
  rw [value_hit _ _ _ _ _ hkeep]

/-- C1 witness: a concrete non-expiring item survives a sweep 500 time units
later and Value still succeeds on it. -/
theorem c1_witness :
    mapLookup (tableZ.expirationCheck 500).1.items 1 = some itemZ ∧
    ((tableZ.expirationCheck 500).1.Value 1 [] 501).1 = .ok (itemZ.KeepAlive 501) :=
  c1_lifespan_zero_never_swept tableZ 500 501 1 itemZ []
    (by decide) (by decide) (by decide)

/-- C2: for every table, key k, lifeSpan d and value v: after Add(k, d, v), an
immediate Value(k) succeeds, returns the item whose data is v, and increments
that item's accessCount by exactly 1 (from 0 to 1) and sets accessedOn to the
access time, because the hit calls KeepAlive before returning. -/
theorem c2_add_then_value (t : CacheTable) (k : Nat) (d : Int) (v : Data)
    (now1 now2 : Int) (args : List Nat) (hnd : keysNodup t) :
    (((t.Add k d v now1).2.1.Value k args now2).1 =
        .ok ((NewCacheItem k d v now1).KeepAlive now2)) ∧
    ((NewCacheItem k d v now1).KeepAlive now2).data = v ∧
    ((NewCacheItem k d v now1).KeepAlive now2).accessCount =
      (NewCacheItem k d v now1).accessCount + 1 ∧
    (NewCacheItem k d v now1).accessCount = 0 ∧
    ((NewCacheItem k d v now1).KeepAlive now2).accessedOn = now2 := by
  have hlk : mapLookup (t.Add k d v now1).2.1.items k = some (NewCacheItem k d v now1) := by
    show mapLookup (t.addInternal (NewCacheItem k d v now1) now1).1.items k = _
    exact addInternal_lookup_self t (NewCacheItem k d v now1) now1 rfl
      (mapInsert_binding_unique hnd)
  refine ⟨?_, rfl, rfl, rfl, rfl⟩
  rw [value_hit _ _ _ _ _ hlk]

/-- C2 witness: adding to the empty table and reading back at a later instant
yields the stored value with accessCount 1. -/
theorem c2_witness :
    ((emptyTable.Add 3 7 (.raw 9) 10).2.1.Value 3 [] 20).1 =
        .ok ((NewCacheItem 3 7 (.raw 9) 10).KeepAlive 20) ∧
    ((NewCacheItem 3 7 (.raw 9) 10).KeepAlive 20).data = .raw 9 ∧
    ((NewCacheItem 3 7 (.raw 9) 10).KeepAlive 20).accessCount =
      (NewCacheItem 3 7 (.raw 9) 10).accessCount + 1 ∧
    (NewCacheItem 3 7 (.raw 9) 10).accessCount = 0 ∧
    ((NewCacheItem 3 7 (.raw 9) 10).KeepAlive 20).accessedOn = 20 :=
  c2_add_then_value emptyTable 3 7 (.raw 9) 10 20 [] (by decide)

theorem addInternal_events_head (t : CacheTable) (item : CacheItem) (now : Int) :
    ∃ rest, (t.addInternal item now).2 =
      Event.insertItem item.key :: Event.tableUnlock :: rest := by
  by_cases htr : 0 < item.lifeSpan ∧
      (({ t with items := mapInsert t.items item.key item } : CacheTable).cleanupInterval = 0 ∨
       item.lifeSpan < ({ t with items := mapInsert t.items item.key item } : CacheTable).cleanupInterval)
  · simp only [CacheTable.addInternal, if_pos htr]
    exact ⟨_, rfl⟩
  · simp only [CacheTable.addInternal, if_neg htr]
    exact ⟨_, rfl⟩

/-- C3: NotFoundAdd returns true and inserts a new item exactly when the key
is absent at the start of its critical section, and returns false with the
item map unchanged when the key is present; the presence check and the insert
both happen before the first release of the table write lock (the first three
events of the trace are lock, insert, unlock). -/
theorem c3_notfoundadd_checks_and_inserts (t : CacheTable) (k : Nat) (d : Int)
    (v : Data) (now : Int) :
    (∀ w, mapLookup t.items k = some w →
      t.NotFoundAdd k d v now = (false, t, [.tableLock, .tableUnlock])) ∧
    (mapLookup t.items k = none →
      (t.NotFoundAdd k d v now).1 = true ∧
      mapLookup (t.NotFoundAdd k d v now).2.1.items k = some (NewCacheItem k d v now) ∧
      (t.NotFoundAdd k d v now).2.2.take 3 =
        [.tableLock, .insertItem k, .tableUnlock]) := by
  constructor
  · intro w hw
    simp [CacheTable.NotFoundAdd, hw]
  · intro habs
    refine ⟨?_, ?_, ?_⟩
    · simp [CacheTable.NotFoundAdd, habs]
    · simp only [CacheTable.NotFoundAdd, habs]
      exact addInternal_lookup_self t _ now rfl (mapInsert_binding_unique_of_absent habs)
    · simp only [CacheTable.NotFoundAdd, habs]
      rcases addInternal_events_head t (NewCacheItem k d v now) now with ⟨rest, hre⟩
      show (Event.tableLock :: (t.addInternal (NewCacheItem k d v now) now).2).take 3 = _
      rw [hre]
      rfl

/-- C3 witness: on the empty table the key 2 is absent, so NotFoundAdd inserts
it, returns true, and does so inside the first critical section. -/
theorem c3_witness :
    (emptyTable.NotFoundAdd 2 5 (.raw 1) 0).1 = true ∧
    mapLookup (emptyTable.NotFoundAdd 2 5 (.raw 1) 0).2.1.items 2 =
      some (NewCacheItem 2 5 (.raw 1) 0) ∧
    (emptyTable.NotFoundAdd 2 5 (.raw 1) 0).2.2.take 3 =
      [.tableLock, .insertItem 2, .tableUnlock] :=
  (c3_notfoundadd_checks_and_inserts emptyTable 2 5 (.raw 1) 0).2 (by decide)

/-- C4: Delete on an absent key fails with ErrKeyNotFound and leaves the table
unchanged: the result table is the input table (so Count is unchanged and no
item is removed) and the trace contains no callback invocation of any kind. -/
theorem c4_delete_absent_unchanged (t : CacheTable) (k : Nat)
    (h : mapLookup t.items k = none) :
    t.Delete k = (.error .keyNotFound, t, [.tableLock, .tableUnlock]) ∧
    (t.Delete k).2.1.Count = t.Count ∧
    ∀ e ∈ (t.Delete k).2.2, cbOf e = none := by
  have h1 : t.Delete k = (.error .keyNotFound, t, [.tableLock, .tableUnlock]) := by
    simp [CacheTable.Delete, CacheTable.deleteInternal, h]
  refine ⟨h1, by rw [h1], ?_⟩
  rw [h1]
  intro e he
  rcases List.mem_cons.1 he with rfl | he
  · rfl
  rcases List.mem_singleton.1 he with rfl
  rfl

/-- C4 witness: deleting the absent key 9 from the concrete one-item table
fails with keyNotFound and changes nothing. -/
theorem c4_witness :
    tableZ.Delete 9 = (.error .keyNotFound, tableZ, [.tableLock, .tableUnlock]) ∧
    (tableZ.Delete 9).2.1.Count = tableZ.Count ∧
    ∀ e ∈ (tableZ.Delete 9).2.2, cbOf e = none :=
  c4_delete_absent_unchanged tableZ 9 (by decide)

/-- C5 counterexample: with a loader that returns `loaderItem` (created at
time 5, carrying about-to-expire callback 7), Value on the absent key 1 at
time 10 returns `loaderItem` itself, but the item stored in the table is a
freshly created one (createdOn 10, no callbacks) — not the loader's Item, so
"that Item is inserted into the table" is false as stated. -/
theorem c5_counterexample :
    (tableL.Value 1 [] 10).1 = .ok loaderItem ∧
    mapLookup (tableL.Value 1 [] 10).2.1.items 1 = some (NewCacheItem 1 0 (.raw 3) 10) ∧
    loaderItem ≠ NewCacheItem 1 0 (.raw 3) 10 :=
  ⟨rfl, rfl, by decide⟩

/-- C5 amended: on a miss, with no loader Value fails with keyNotFound and the
table is unchanged; with a loader, the loader is invoked with the key and
arguments; a nil result fails with keyNotFoundOrLoadable leaving the table
unchanged; an Item result is returned to the caller while a fresh item built
from its lifeSpan and data (not the loader's Item itself) is inserted via
Add under the requested key. -/
theorem c5_value_miss_loader (t : CacheTable) (k : Nat) (args : List Nat) (now : Int)
    (habs : mapLookup t.items k = none) :
    (t.loadData = none → t.Value k args now = (.error .keyNotFound, t, [])) ∧
    (∀ L, t.loadData = some L →
      (L k args = none → t.Value k args now = (.error .keyNotFoundOrLoadable, t, [])) ∧
      (∀ item, L k args = some item →
        (t.Value k args now).1 = .ok item ∧
        mapLookup (t.Value k args now).2.1.items k =
          some (NewCacheItem k item.lifeSpan item.data now))) := by
  refine ⟨?_, ?_⟩
  · intro hl
    simp [CacheTable.Value, habs, hl]
  · intro L hl
    refine ⟨?_, ?_⟩
    · intro hnone
      simp [CacheTable.Value, habs, hl, hnone]
    · intro item hsome
      constructor
      · simp [CacheTable.Value, habs, hl, hsome]
      · simp only [CacheTable.Value, habs, hl, hsome]
        show mapLookup (t.addInternal (NewCacheItem k item.lifeSpan item.data now) now).1.items k = _
        exact addInternal_lookup_self t _ now rfl (mapInsert_binding_unique_of_absent habs)

/-- C5 witness: on the empty table (no loader) a miss fails with keyNotFound
and the table is unchanged. -/
theorem c5_witness :
    emptyTable.Value 1 [] 0 = (.error .keyNotFound, emptyTable, []) :=
  (c5_value_miss_loader emptyTable 1 [] 0 (by decide)).1 rfl

/-- C6 counterexample: in the concrete deletion of key 5 from `tableD`
(one table-level about-to-delete callback, one item-level about-to-expire
callback), some callback is invoked while a lock is held — the about-to-expire
callback runs under the removed item's read lock, contradicting the claim
that no callback is invoked while any table or item lock is held. -/
theorem c6_counterexample :
    ∃ p ∈ annotate ⟨1, []⟩ (tableD.deleteInternal 5).2.2,
      (cbOf p.2).isSome = true ∧ ¬(p.1.tableW = 0 ∧ p.1.itemR = []) := by
  decide

/-- C6 amended: for every deletion of a present key (deleteInternal, invoked
with the table write lock held both by Delete and by the sweep), the
table-level about-to-delete callbacks are invoked first, in registration
order, each exactly once with the removed Item; then the item-level
about-to-expire callbacks, in registration order, each exactly once with the
removed key.  The about-to-delete callbacks run with no lock held (the table
lock is released first); the about-to-expire callbacks, however, run while
the removed item's read lock is held (the table lock stays released). -/
theorem c6_delete_callback_discipline (t : CacheTable) (k : Nat) (r : CacheItem)
    (h : mapLookup t.items k = some r) :
    (t.deleteInternal k).1 = .ok r ∧
    (t.deleteInternal k).2.2.filterMap cbOf =
      t.aboutToDeleteItem.map (fun cb => CbCall.del cb r) ++
      r.aboutToExpire.map (fun cb => CbCall.exp cb k) ∧
    (∀ p ∈ annotate ⟨1, []⟩ (t.deleteInternal k).2.2,
      (∀ cb it, p.2 = Event.cbAboutToDelete cb it → p.1 = ⟨0, []⟩) ∧
      (∀ cb k2, p.2 = Event.cbAboutToExpire cb k2 → p.1 = ⟨0, [k]⟩)) := by
  have hA : ∀ e ∈ t.aboutToDeleteItem.map (fun cb => Event.cbAboutToDelete cb r),
      lockNeutral e := by
    intro e he
    rcases List.mem_map.1 he with ⟨cb, _, rfl⟩
    exact lockNeutral_cbAboutToDelete cb r
  have hB : ∀ e ∈ r.aboutToExpire.map (fun cb => Event.cbAboutToExpire cb k),
      lockNeutral e := by
    intro e he
    rcases List.mem_map.1 he with ⟨cb, _, rfl⟩
    exact lockNeutral_cbAboutToExpire cb k
  have hdel : ∀ (l : List Nat), (l.map (fun cb => Event.cbAboutToDelete cb r)).filterMap cbOf
      = l.map (fun cb => CbCall.del cb r) := by
    intro l
    induction l with
    | nil => rfl
    | cons cb rest ih => simp [cbOf, ih]
  have hexp : ∀ (l : List Nat), (l.map (fun cb => Event.cbAboutToExpire cb k)).filterMap cbOf
      = l.map (fun cb => CbCall.exp cb k) := by
    intro l
    induction l with
    | nil => rfl
    | cons cb rest ih => simp [cbOf, ih]
  refine ⟨by simp [CacheTable.deleteInternal, h], ?_, ?_⟩
  · simp only [CacheTable.deleteInternal, h]
    simp [cbOf, List.filterMap_cons, List.filterMap_append, hdel, hexp]
  · have hann : annotate ⟨1, []⟩ (t.deleteInternal k).2.2 =
        ((⟨1, []⟩ : LockState), Event.tableUnlock) ::
        (t.aboutToDeleteItem.map
            (fun cb => ((⟨0, []⟩ : LockState), Event.cbAboutToDelete cb r)) ++
         (((⟨0, []⟩ : LockState), Event.itemRLock k) ::
          (r.aboutToExpire.map
              (fun cb => ((⟨0, [k]⟩ : LockState), Event.cbAboutToExpire cb k)) ++
           [((⟨0, [k]⟩ : LockState), Event.tableLock),
            ((⟨1, [k]⟩ : LockState), Event.deleteItem k),
            ((⟨1, [k]⟩ : LockState), Event.itemRUnlock k)]))) := by
      simp only [CacheTable.deleteInternal, h]
      rw [annotate]
      rw [show stepLock ⟨1, []⟩ Event.tableUnlock = (⟨0, []⟩ : LockState) from rfl]
      rw [annotate_append, annotate_neutral _ _ hA, foldl_stepLock_neutral _ _ hA]
      rw [annotate]
      rw [show stepLock ⟨0, []⟩ (Event.itemRLock k) = (⟨0, [k]⟩ : LockState) from rfl]
      rw [annotate_append, annotate_neutral _ _ hB, foldl_stepLock_neutral _ _ hB]
      simp only [annotate, stepLock, List.map_map]
      rfl
    rw [hann]
    intro p hp
    rcases List.mem_cons.1 hp with rfl | hp
    · exact ⟨fun cb it heq => (nomatch heq), fun cb k2 heq => nomatch heq⟩
    rcases List.mem_append.1 hp with hp | hp
    · rcases List.mem_map.1 hp with ⟨cb0, _, rfl⟩
      exact ⟨fun cb it _ => rfl, fun cb k2 heq => nomatch heq⟩
    rcases List.mem_cons.1 hp with rfl | hp
    · exact ⟨fun cb it heq => (nomatch heq), fun cb k2 heq => nomatch heq⟩
    rcases List.mem_append.1 hp with hp | hp
    · rcases List.mem_map.1 hp with ⟨cb0, _, rfl⟩
      exact ⟨fun cb it heq => (nomatch heq), fun cb k2 _ => rfl⟩
    rcases List.mem_cons.1 hp with rfl | hp
    · exact ⟨fun cb it heq => (nomatch heq), fun cb k2 heq => nomatch heq⟩
    rcases List.mem_cons.1 hp with rfl | hp
    · exact ⟨fun cb it heq => (nomatch heq), fun cb k2 heq => nomatch heq⟩
    rcases List.mem_singleton.1 hp with rfl
    exact ⟨fun cb it heq => (nomatch heq), fun cb k2 heq => nomatch heq⟩

/-- C6 witness: the discipline theorem applied to the concrete deletion of key
5 from `tableD`. -/
theorem c6_witness :
    (tableD.deleteInternal 5).1 = .ok itemE ∧
    (tableD.deleteInternal 5).2.2.filterMap cbOf =
      tableD.aboutToDeleteItem.map (fun cb => CbCall.del cb itemE) ++
      itemE.aboutToExpire.map (fun cb => CbCall.exp cb 5) ∧
    (∀ p ∈ annotate ⟨1, []⟩ (tableD.deleteInternal 5).2.2,
      (∀ cb it, p.2 = Event.cbAboutToDelete cb it → p.1 = ⟨0, []⟩) ∧
      (∀ cb k2, p.2 = Event.cbAboutToExpire cb k2 → p.1 = ⟨0, [5]⟩)) :=
  c6_delete_callback_discipline tableD 5 itemE (by decide)

/-- C7 counterexample: MostAccessed(-1) on the two-item table returns the
empty list (length 0), while min(n, Count()) = min(-1, 2) = -1, so the length
is not "exactly min(n, Count())" for every count n. -/
theorem c7_counterexample :
    ((tableM.MostAccessed (-1)).1.length : Int) ≠ min (-1 : Int) (tableM.Count : Int) := by
  decide

/-- C7 amended: for every table and count n, MostAccessed(n) returns a
sequence of items sorted by non-increasing accessCount whose length is
min(toNat n, Count()) — that is, min(n, Count()) for n ≥ 0 and 0 for negative
n — and does not mutate any access state (the table is returned unchanged;
no accessCount or accessedOn is written). -/
theorem c7_mostaccessed_sorted_length (t : CacheTable) (n : Int) (hnd : keysNodup t) :
    (t.MostAccessed n).1.Pairwise (fun a b : CacheItem => b.accessCount ≤ a.accessCount) ∧
    (t.MostAccessed n).1.length = min n.toNat t.Count ∧
    (t.MostAccessed n).2 = t := by
  have hmem : ∀ v ∈ (t.items.map (fun kv => (kv.1, kv.2.accessCount))).insertionSort pairGE,
      ∃ kv ∈ t.items, v = (kv.1, kv.2.accessCount) := by
    intro v hv
    rw [List.mem_insertionSort] at hv
    rcases List.mem_map.1 hv with ⟨kv, hkv, hv2⟩
    exact ⟨kv, hkv, hv2.symm⟩
  have hlk : ∀ v ∈ (t.items.map (fun kv => (kv.1, kv.2.accessCount))).insertionSort pairGE,
      (mapLookup t.items v.1).isSome = true := by
    intro v hv
    rcases hmem v hv with ⟨kv, hkv, rfl⟩
    cases hsome : mapLookup t.items kv.1 with
    | none =>
        exfalso
        have : (kv.1, kv.2) ∈ t.items := by rwa [Prod.mk.eta]
        exact not_mem_of_mapLookup_none hsome kv.2 this
    | some it => rfl
  have hcons : ∀ v ∈ (t.items.map (fun kv => (kv.1, kv.2.accessCount))).insertionSort pairGE,
      ∀ it, mapLookup t.items v.1 = some it → it.accessCount = v.2 := by
    intro v hv it hlkup
    rcases hmem v hv with ⟨kv, hkv, rfl⟩
    have h1 : (kv.1, kv.2) ∈ t.items := by rwa [Prod.mk.eta]
    have h2 := binding_unique_of_nodup hnd (mem_of_mapLookup hlkup) h1
    rw [h2]
  refine ⟨?_, ?_, rfl⟩
  · exact collectTop_sorted t n _ hcons (List.sorted_insertionSort pairGE _) 0
  · have hlen := collectTop_length t n _ hlk 0
    show (t.collectTop n
      ((t.items.map (fun kv => (kv.1, kv.2.accessCount))).insertionSort pairGE) 0).length = _
    rw [hlen]
    have : ((t.items.map (fun kv => (kv.1, kv.2.accessCount))).insertionSort pairGE).length
        = t.items.length := by
      rw [List.length_insertionSort, List.length_map]
    rw [this, sub_zero]
    rfl

/-- C7 witness: MostAccessed(5) on the concrete two-item table, sorted and of
length min(5, 2) = 2, with the table unchanged. -/
theorem c7_witness :
    (tableM.MostAccessed 5).1.Pairwise
      (fun a b : CacheItem => b.accessCount ≤ a.accessCount) ∧
    (tableM.MostAccessed 5).1.length = min (Int.toNat 5) tableM.Count ∧
    (tableM.MostAccessed 5).2 = tableM :=
  c7_mostaccessed_sorted_length tableM 5 (by decide)

/-- C8 counterexample: item `itemR` (lifeSpan 10, last accessed at 0) is
snapshotted by the sweep; a concurrent KeepAlive lands at time 99; the sweep
then decides at time 100 from its stale snapshot and deletes the item even
though only 1 < 10 time units have passed since its last keep-alive — the
claimed "never evicted" guarantee fails. -/
theorem c8_counterexample :
    (sweepRaceDecision itemR 99 100).1 = true ∧
    100 - (sweepRaceDecision itemR 99 100).2.accessedOn <
      (sweepRaceDecision itemR 99 100).2.lifeSpan := by
  decide

/-- C8 amended: the sweep reads lifeSpan and accessedOn once, under the item
lock, at the start of its per-item step, and decides from that snapshot; it
does not re-read them at decision time, so a keep-alive that lands between
snapshot and decision has no effect on the decision (second conjunct).  What
does hold: an item whose snapshot at sweep time shows elapsed < lifeSpan (or
lifeSpan 0) is not deleted by that sweep (first conjunct). -/
theorem c8_sweep_uses_stale_snapshot (t : CacheTable) (now : Int) (k : Nat)
    (it : CacheItem) (tKeep : Int) (hnd : keysNodup t)
    (hit : mapLookup t.items k = some it)
    (hfresh : sweepShouldDelete (sweepSnapshot it) now = false) :
    mapLookup (t.expirationCheck now).1.items k = some it ∧
    (sweepRaceDecision it tKeep now).1 = sweepShouldDelete (sweepSnapshot it) now := by
  refine ⟨?_, rfl⟩
  rw [expirationCheck_lookup_keep]
  · exact hit
  · intro kv hkv hk
    rw [lookup_binding_unique hnd hit kv hkv hk]
    exact hfresh

/-- C8 witness: the amended statement at the concrete table `tableZ`. -/
theorem c8_witness :
    mapLookup (tableZ.expirationCheck 100).1.items 1 = some itemZ ∧
    (sweepRaceDecision itemZ 50 100).1 = sweepShouldDelete (sweepSnapshot itemZ) 100 :=
  c8_sweep_uses_stale_snapshot tableZ 100 1 itemZ 50 (by decide) (by decide) (by decide)

/-- C9 counterexample: on `tableZ`, whose item's payload is a plain value (not
a container), HValue does not return the hash type-mismatch error — its
unchecked type assertion panics (aborting the process, contrary to the
claim) — and SAdd completes without any error at all, silently returning the
item and leaving the table as it was. -/
theorem c9_counterexample :
    (tableZ.HValue 1 2 0).1 = .panicked ∧
    (tableZ.HValue 1 2 0).1 ≠ .err .keyTypeNotHash ∧
    (tableZ.SAdd 1 5 9 0).1 = itemZ ∧
    mapLookup (tableZ.SAdd 1 5 9 0).2.items 1 = some itemZ :=
  ⟨rfl, by decide, rfl, rfl⟩

/-- C9 amended: on a key whose item's payload is not the expected container
kind, ListLength, push (LPush/RPush), pop (LPop/RPop), SDelete and HDelete
return the corresponding type-mismatch error and leave the table (and hence
the payload) unchanged; SAdd and HAdd silently do nothing and return the item
with no error; SIsMember returns false; and HValue's unchecked downcast
panics rather than returning an error. -/
theorem c9_wrong_kind_behavior (t : CacheTable) (k : Nat) (it : CacheItem)
    (d now : Int) (x hk2 : Nat) (fl : Bool)
    (hit : mapLookup t.items k = some it) :
    ((∀ l, it.data ≠ .dlist l) →
      t.ListLength k = .error .keyTypeNotList ∧
      t.push fl k d x now = (.error .keyTypeNotList, t) ∧
      t.pop fl k = (.err .keyTypeNotList, t)) ∧
    ((∀ a b, it.data ≠ .dset a b) →
      t.SAdd k d x now = (it, t) ∧
      t.SIsMember k x = false ∧
      t.SDelete k x = (.error .keyTypeNotSet, t)) ∧
    ((∀ h2, it.data ≠ .dhash h2) →
      t.HValue k hk2 now = (.panicked, t) ∧
      t.HAdd k d hk2 x now = (it, t) ∧
      t.HDelete k hk2 = (.error .keyTypeNotHash, t)) := by
  refine ⟨?_, ?_, ?_⟩
  · intro hno
    cases hd : it.data with
    | dlist l => exact absurd hd (hno l)
    | raw a =>
        exact ⟨by simp [CacheTable.ListLength, hit, hd],
          by simp [CacheTable.push, hit, hd], by simp [CacheTable.pop, hit, hd]⟩
    | dset a b =>
        exact ⟨by simp [CacheTable.ListLength, hit, hd],
          by simp [CacheTable.push, hit, hd], by simp [CacheTable.pop, hit, hd]⟩
    | dhash a =>
        exact ⟨by simp [CacheTable.ListLength, hit, hd],
          by simp [CacheTable.push, hit, hd], by simp [CacheTable.pop, hit, hd]⟩
  · intro hno
    cases hd : it.data with
    | dset a b => exact absurd hd (hno a b)
    | raw a =>
        exact ⟨by simp [CacheTable.SAdd, hit, hd],
          by simp [CacheTable.SIsMember, hit, hd], by simp [CacheTable.SDelete, hit, hd]⟩
    | dlist l =>
        exact ⟨by simp [CacheTable.SAdd, hit, hd],
          by simp [CacheTable.SIsMember, hit, hd], by simp [CacheTable.SDelete, hit, hd]⟩
    | dhash a =>
        exact ⟨by simp [CacheTable.SAdd, hit, hd],
          by simp [CacheTable.SIsMember, hit, hd], by simp [CacheTable.SDelete, hit, hd]⟩
  · intro hno
    cases hd : it.data with
    | dhash a => exact absurd hd (hno a)
    | raw a =>
        exact ⟨by simp [CacheTable.HValue, hit, hd],
          by simp [CacheTable.HAdd, hit, hd], by simp [CacheTable.HDelete, hit, hd]⟩
    | dlist l =>
        exact ⟨by simp [CacheTable.HValue, hit, hd],
          by simp [CacheTable.HAdd, hit, hd], by simp [CacheTable.HDelete, hit, hd]⟩
    | dset a b =>
        exact ⟨by simp [CacheTable.HValue, hit, hd],
          by simp [CacheTable.HAdd, hit, hd], by simp [CacheTable.HDelete, hit, hd]⟩

/-- C9 witness: every adapter operation evaluated on the concrete table whose
item payload is a plain (raw) value. -/
theorem c9_witness :
    tableZ.ListLength 1 = .error .keyTypeNotList ∧
    tableZ.push true 1 5 9 0 = (.error .keyTypeNotList, tableZ) ∧
    tableZ.pop true 1 = (.err .keyTypeNotList, tableZ) ∧
    tableZ.SAdd 1 5 9 0 = (itemZ, tableZ) ∧
    tableZ.SIsMember 1 9 = false ∧
    tableZ.SDelete 1 9 = (.error .keyTypeNotSet, tableZ) ∧
    tableZ.HValue 1 2 0 = (.panicked, tableZ) ∧
    tableZ.HAdd 1 5 2 9 0 = (itemZ, tableZ) ∧
    tableZ.HDelete 1 2 = (.error .keyTypeNotHash, tableZ) := by
  have h := c9_wrong_kind_behavior tableZ 1 itemZ 5 0 9 2 true (by decide)
  have h1 := h.1 (fun l hx => nomatch hx)
  have h2 := h.2.1 (fun a b hx => nomatch hx)
  have h3 := h.2.2 (fun a hx => nomatch hx)
  exact ⟨h1.1, h1.2.1, h1.2.2, h2.1, h2.2.1, h2.2.2, h3.1, h3.2.1, h3.2.2⟩

/-- C10 counterexample: `tableX` holds key 1 (an old item) and key 2 (an item
whose lifespan has long expired) with no sweep scheduled.  Add(1, 10, v) at
time 100 overwrites key 1 but also triggers an expiration sweep that removes
key 2, so Count drops from 2 to 1 — Count() is not unchanged. -/
theorem c10_counterexample :
    mapLookup tableX.items 1 = some itemOld ∧
    tableX.Count = 2 ∧
    (tableX.Add 1 10 (.raw 9) 100).2.1.Count = 1 :=
  ⟨rfl, rfl, rfl⟩

/-- C10 amended: Add on an already-present key overwrites the map entry with a
freshly created item (accessCount 0, createdOn = accessedOn = the Add time);
the replacement itself removes nothing, so Count() is unchanged provided the
Add does not find other expired items to sweep (if the triggered sweep finds
any, they are removed and Count decreases); and the previous item's
about-to-delete and about-to-expire callbacks are never invoked by the
replacement. -/
theorem c10_add_overwrites (t : CacheTable) (k : Nat) (old : CacheItem) (d : Int)
    (v : Data) (now : Int) (hnd : keysNodup t) (hkc : keyConsistent t)
    (hit : mapLookup t.items k = some old) :
    mapLookup (t.Add k d v now).2.1.items k = some (NewCacheItem k d v now) ∧
    (NewCacheItem k d v now).accessCount = 0 ∧
    (NewCacheItem k d v now).createdOn = now ∧
    (NewCacheItem k d v now).accessedOn = now ∧
    ((∀ kv ∈ mapInsert t.items k (NewCacheItem k d v now),
        sweepShouldDelete (sweepSnapshot kv.2) now = false) →
      (t.Add k d v now).2.1.Count = t.Count) ∧
    (∀ cb, Event.cbAboutToDelete cb old ∉ (t.Add k d v now).2.2) ∧
    (∀ cb, Event.cbAboutToExpire cb k ∉ (t.Add k d v now).2.2) := by
  have hold : old.key = k := hkc (k, old) (mem_of_mapLookup hit)
  have hev := addInternal_events_noCbFor t (NewCacheItem k d v now) now k hkc rfl rfl
    (mapInsert_binding_unique hnd)
  refine ⟨?_, rfl, rfl, rfl, ?_, ?_, ?_⟩
  · exact addInternal_lookup_self t _ now rfl (mapInsert_binding_unique hnd)
  · intro hks
    show ((t.addInternal (NewCacheItem k d v now) now).1.items).length = t.items.length
    rw [addInternal_items_of_no_expired t _ now hks]
    exact mapInsert_length_of_mem t.items k _ old hit
  · intro cb hmem
    rcases List.mem_cons.1 hmem with heq | hmem
    · exact nomatch heq
    · exact (hev _ hmem) hold
  · intro cb hmem
    rcases List.mem_cons.1 hmem with heq | hmem
    · exact nomatch heq
    · exact (hev _ hmem) rfl

/-- C10 witness: replacing the only binding of `tableZ` at time 100 with a
fresh lifeSpan-10 item: the entry is overwritten, Count is unchanged, and no
deletion callback of the replaced item fires. -/
theorem c10_witness :
    mapLookup (tableZ.Add 1 10 (.raw 9) 100).2.1.items 1 =
      some (NewCacheItem 1 10 (.raw 9) 100) ∧
    (tableZ.Add 1 10 (.raw 9) 100).2.1.Count = tableZ.Count ∧
    (∀ cb, Event.cbAboutToDelete cb itemZ ∉ (tableZ.Add 1 10 (.raw 9) 100).2.2) ∧
    (∀ cb, Event.cbAboutToExpire cb 1 ∉ (tableZ.Add 1 10 (.raw 9) 100).2.2) := by
  have h := c10_add_overwrites tableZ 1 itemZ 10 (.raw 9) 100
    (by decide) (by decide) (by decide)
  exact ⟨h.1, h.2.2.2.2.1 (by decide), h.2.2.2.2.2.1, h.2.2.2.2.2.2⟩

end Cache2go
